import Mathlib

/-!
# Verification of the ELD seed-data pipeline

A shallow embedding of the two scripts of this repository,
`read_excel.py` and `parse_eld_data.py`, together with proofs about the
transformation they implement.

Modelling conventions:

* A spreadsheet / CSV cell that pandas reports as missing (`NaN`) is the
  outer `none` of an `Option`; `pd.notna` is `Option.isSome`.
* The `Timestamp_EDT` cell is three-valued (`TsCell`): it parses to a
  `Timestamp` (a calendar-day index with a time-of-day index; the strings
  `read_excel.py` writes with `df.to_csv` are ISO formatted, so their sort
  order is chronological); or it holds unparseable text, on which
  `pd.to_datetime` raises and the `except` handler skips the row whole; or
  it is missing, in which case `pd.to_datetime` returns `NaT` — and
  `NaT.date()` is `NaT`, `NaT` compares `!=` true against everything
  (itself included), and `NaT.strftime` raises.  So a missing-timestamp
  row enters the date-change block, appends the open log book and sets
  `current_date = NaT`, and only then raises while building the fresh
  book: the open book ends up duplicated in `log_books`.  The model keeps
  this error path (see `processRow`).
* The numeric cells (`Engine_Hours`, `Odometer_Miles`, `Latitude`,
  `Longitude`) are `Option (Option Int)`: outer `none` is a missing cell,
  `some none` is a present cell on which Python `float(...)` raises
  (a non-numeric string), `some (some v)` is a present numeric cell.  The
  numeric values themselves are only copied through by the script, so an
  integer stand-in loses nothing the scripts inspect; `int(float(x))` on a
  value already integral is the identity.
* The random `uuid.uuid4()` identifiers are not modelled; the `_id` of an
  asset is identified with its position in the `assets_data` list, which is
  what the `vehicleId` resolution in the fold actually distinguishes.
* File writes are modelled as values describing the effect (the list of
  file names written).
-/

namespace Eld

/-- A parsed timestamp (the result of `pd.to_datetime`): a calendar-day
index (`day`, the value underlying `timestamp.date()` and
`timestamp.strftime("%Y-%m-%d")`) and a time-of-day index (`tod`). -/
structure Timestamp where
  day : Nat
  tod : Nat
  deriving DecidableEq, Repr

/-- Chronological order on parsed timestamps: by day, then time of day. -/
def Timestamp.le (a b : Timestamp) : Bool :=
  decide (a.day < b.day ∨ (a.day = b.day ∧ a.tod ≤ b.tod))

/-- The `Timestamp_EDT` cell as `pd.to_datetime(row['Timestamp_EDT'])`
sees it:
* `val ts` — the cell parses to the timestamp `ts`;
* `invalid` — the cell holds text on which `pd.to_datetime` raises;
  the `except` handler catches it before any state is touched;
* `missing` — the cell is empty (pandas `NaN`): `pd.to_datetime` returns
  `NaT`, `NaT.date()` returns `NaT`, `NaT != x` is true for every `x`
  (including `NaT` itself), and `NaT.strftime` raises. -/
inductive TsCell where
  | missing
  | invalid
  | val (ts : Timestamp)
  deriving DecidableEq, Repr

/-- The parsed timestamp of a cell, when it has one. -/
def TsCell.toOption : TsCell → Option Timestamp
  | .val ts => some ts
  | _ => none

/-- One data row of `driver_records.csv` in the form `generate_seed_data`
consumes it, after the positional renaming of the 17 columns.  Only the
columns the builder reads are listed; `App_Version`, `CoDriver`,
`Event_Status`, `Event_Origin`, `Event_Type`, `Event_Code`,
`Verified_Timestamp_EDT` and `DM_Code` are never inspected by
`generate_seed_data` and carry no information the output depends on. -/
structure Row where
  eldId : Option String
  timestamp : TsCell
  tractorNumber : Option String
  engineHours : Option (Option Int)
  odometerMiles : Option (Option Int)
  newStatus : Option String
  location : Option String
  latitude : Option (Option Int)
  longitude : Option (Option Int)
  deriving DecidableEq, Repr

/-- Python `str()` applied to a raw cell: a missing cell (pandas `NaN`)
stringifies to `"nan"`; a present value stringifies to itself (the model
keeps raw cells as strings). -/
def pyStr : Option String → String
  | none => "nan"
  | some s => s

/-- `float(cell) if pd.notna(cell) else None` (and likewise
`int(float(cell))` for the odometer): a missing cell yields `None`; a
present non-numeric cell makes the conversion raise (`none` result), which
the enclosing `except` turns into a skipped row. -/
def pyFloatOpt : Option (Option Int) → Option (Option Int)
  | none => some none
  | some none => none
  | some (some v) => some (some v)

/-- The `duty_status_map` of `generate_seed_data`, combined with the
membership test `row['New_Status'] in ['ON', 'OFF', 'D', 'SB']` that guards
it (the guard list and the map keys are the same four codes): any other
code yields no duty-status enum. -/
def duty_status_map (s : String) : Option String :=
  if s = "ON" then some "ON_DUTY"
  else if s = "OFF" then some "OFF_DUTY"
  else if s = "D" then some "DRIVING"
  else if s = "SB" then some "SLEEPER_BERTH"
  else none

/-- The mapped duty status of a row: present exactly when the `New_Status`
cell is present (`pd.notna`) and its code is in the known four-code set. -/
def statusOf (r : Row) : Option String :=
  r.newStatus.bind duty_status_map

/-- The `carrier_data` record (fields the claims mention; the remaining
fields of the Python dict are constants as well). -/
structure Carrier where
  name : String
  dotNumber : String
  state : String
  businessType : String
  deriving DecidableEq, Repr

def carrier_data : Carrier :=
  { name := "FNE TRANSPORT LLC"
    dotNumber := "4345433"
    state := "TX"
    businessType := "FOR_HIRE_CARRIER" }

/-- The synthetic `driver_data` record (constant fields). -/
structure Driver where
  firstName : String
  lastName : String
  licenseNumber : String
  licenseState : String
  eldUsername : String
  deriving DecidableEq, Repr

def driver_data : Driver :=
  { firstName := "John"
    lastName := "Driver"
    licenseNumber := "TX123456789"
    licenseState := "TX"
    eldUsername := "jdriver" }

/-- An `assets_data` entry.  `_id` (a random UUID) is identified with the
asset's position in `assets_data`; the constant fields of the Python dict
are kept literally. -/
structure Asset where
  vehicleNumber : String
  vin : String
  year : Nat
  make : String
  model : String
  eldDeviceId : Option String
  status : String
  deriving DecidableEq, Repr

/-- `Series.dropna().unique()` of pandas: the distinct present values of a
column, in order of first occurrence.  (`List.dedup` keeps last
occurrences, hence the double reversal.) -/
def uniqueFirst (l : List String) : List String :=
  l.reverse.dedup.reverse

/-- Build one `assets_data` entry for the tractor number `t` (the
`for tractor_num in unique_tractors` loop of `generate_seed_data`).
`eldDeviceId` is `df[df['Tractor_Number'] == tractor_num]['ELD_ID'].iloc[0]`:
the `ELD_ID` cell of the first row of the (unsorted) input whose raw
tractor cell equals `t`. -/
def mkAsset (rows : List Row) (t : String) : Asset :=
  { vehicleNumber := t
    vin := "1FUJA6CV" ++ t ++ "000000"
    year := 2020
    make := "FREIGHTLINER"
    model := "CASCADIA"
    eldDeviceId := (rows.find? (fun r => r.tractorNumber == some t)).bind Row.eldId
    status := "ACTIVE" }

/-- `unique_tractors = df['Tractor_Number'].dropna().unique()` followed by
the asset-construction loop. -/
def assets_data (rows : List Row) : List Asset :=
  (uniqueFirst (rows.filterMap Row.tractorNumber)).map (mkAsset rows)

/-- A `duty_event` dict (fields of the Python dict; `_id` is a random UUID
and is not modelled). -/
structure DutyEvent where
  timestamp : Timestamp
  status : String
  latitude : Option Int
  longitude : Option Int
  address : Option String
  odometer : Option Int
  engineHours : Option Int
  source : String
  eldRecordId : Option String
  deriving DecidableEq, Repr

/-- A log-book dict.  `vehicleId` is the position in `assets_data` of the
resolved asset (`None` when no asset matches); `logDate` is the calendar
day written by `timestamp.strftime("%Y-%m-%d")`. -/
structure LogBook where
  vehicleId : Option Nat
  logDate : Nat
  dutyEvents : List DutyEvent
  status : String
  deriving DecidableEq, Repr

/-- The mutable state of the row loop of `generate_seed_data`:
`log_books`, `current_date`, `current_log`. -/
structure FoldState where
  log_books : List LogBook
  current_date : Option Nat
  current_log : Option LogBook
  deriving DecidableEq, Repr

/-- `next((a["_id"] for a in assets_data if a["vehicleNumber"] == str(row['Tractor_Number'])), None)`:
the position of the first asset whose `vehicleNumber` equals the
stringified tractor cell of the row, if any. -/
def resolveVehicle (assets : List Asset) (r : Row) : Option Nat :=
  assets.findIdx? (fun a => a.vehicleNumber == pyStr r.tractorNumber)

/-- The fresh `current_log` dict opened on a date change. -/
def openBook (assets : List Asset) (r : Row) (d : Nat) : LogBook :=
  { vehicleId := resolveVehicle assets r
    logDate := d
    dutyEvents := []
    status := "ACTIVE" }

/-- The `if current_date != log_date:` block: on a date change, append the
current log book (if one is open) to `log_books` and open a fresh one. -/
def stepBooks (assets : List Asset) (st : FoldState) (r : Row) (d : Nat) :
    FoldState :=
  if st.current_date = some d then st
  else
    { log_books := st.log_books ++ st.current_log.toList
      current_date := some d
      current_log := some (openBook assets r d) }

/-- The `duty_event` construction for a row whose status code is in the
known set.  A raising numeric conversion (`float` / `int(float(...))` on a
non-numeric present cell) yields `none`: the `except` handler drops the
row's event. -/
def buildEvent (ts : Timestamp) (s : String) (r : Row) : Option DutyEvent :=
  match pyFloatOpt r.latitude, pyFloatOpt r.longitude,
      pyFloatOpt r.odometerMiles, pyFloatOpt r.engineHours with
  | some lat, some lon, some odo, some eh =>
    some { timestamp := ts
           status := s
           latitude := lat
           longitude := lon
           address := r.location
           odometer := odo
           engineHours := eh
           source := "ELD"
           eldRecordId := r.eldId }
  | _, _, _, _ => none

/-- `current_log["dutyEvents"].append(duty_event)` (a no-op if no log is
open, which the loop structure rules out when an event is built). -/
def appendEvent (st : FoldState) (ev : DutyEvent) : FoldState :=
  { st with
    current_log :=
      st.current_log.map fun lb =>
        { lb with dutyEvents := lb.dutyEvents ++ [ev] } }

/-- The body of `for _, row in df_sorted.iterrows(): try: ...`.
* A row whose `Timestamp_EDT` text does not parse raises at
  `pd.to_datetime`; nothing was touched yet, so the row is skipped whole.
* A row with a missing `Timestamp_EDT` gets `timestamp = NaT` and
  `log_date = NaT.date() = NaT`; `current_date != NaT` is always true, so
  the date-change block runs: the open log book (if any) is appended to
  `log_books` and `current_date` is set to `NaT` — and only then does the
  fresh-book construction raise at `NaT.strftime`, leaving `current_log`
  pointing at the already-appended book.  As a `current_date` value `NaT`
  behaves exactly like the initial Python `None` (both compare `!=` true
  against every later `log_date`), so both are modelled as `none`.
* A row with a parsed timestamp runs the date-change block unless
  `current_date` is its own day, then appends a duty event when its status
  code is in the known set and no numeric conversion raises. -/
def processRow (assets : List Asset) (st : FoldState) (r : Row) : FoldState :=
  match r.timestamp with
  | .invalid => st
  | .missing =>
    { log_books := st.log_books ++ st.current_log.toList
      current_date := none
      current_log := st.current_log }
  | .val ts =>
    let st1 := stepBooks assets st r ts.day
    match statusOf r with
    | none => st1
    | some s =>
      match buildEvent ts s r with
      | none => st1
      | some ev => appendEvent st1 ev

/-- Comparison used by `df.sort_values('Timestamp_EDT')` on the raw
column: missing cells (`NaN`) sort last (`na_position='last'`); parseable
cells are ISO-formatted strings, whose lexicographic order is the
chronological order of their timestamps.  Cells holding unparseable text
sort lexicographically among the strings in pandas; their exact position
is irrelevant to every output (such a row raises at `pd.to_datetime`
before touching any state), and the model places them between the valid
and the missing rows. -/
def rowLe (a b : Row) : Bool :=
  match a.timestamp, b.timestamp with
  | .val x, .val y => Timestamp.le x y
  | .val _, _ => true
  | .invalid, .val _ => false
  | .invalid, _ => true
  | .missing, .missing => true
  | .missing, _ => false

/-- `rowLe` as a relation, for use with the sorting library. -/
def RowLe (a b : Row) : Prop :=
  rowLe a b = true

instance : DecidableRel RowLe :=
  fun a b => inferInstanceAs (Decidable (rowLe a b = true))

/-- `df_sorted = df.sort_values('Timestamp_EDT')`: sort the rows by the
chronological comparison (any comparison sort models pandas quicksort; no
claim depends on the order of ties). -/
def sortRows (rows : List Row) : List Row :=
  List.insertionSort RowLe rows

/-- After the loop, `if current_log: log_books.append(current_log)`: the
log books accumulated so far plus the still-open one. -/
def finalBooks (st : FoldState) : List LogBook :=
  st.log_books ++ st.current_log.toList

/-- The complete `seed_data` document (the `metadata` sub-dict is reduced to
the pieces that are functions of the input rows; `importDate` is the wall
clock and the raw `dateRange` strings are not modelled). -/
structure SeedData where
  carrier : Carrier
  drivers : List Driver
  assets : List Asset
  logBooks : List LogBook
  totalRecords : Nat
  deriving DecidableEq, Repr

/-- `generate_seed_data(df)`: build the carrier, the assets, the singleton
driver, then fold the chronologically sorted rows into log books and duty
events. -/
def generate_seed_data (rows : List Row) : SeedData :=
  let assets := assets_data rows
  let final := (sortRows rows).foldl (processRow assets) ⟨[], none, none⟩
  { carrier := carrier_data
    drivers := [driver_data]
    assets := assets
    logBooks := finalBooks final
    totalRecords := rows.length }

/-- All duty events of the document, in log-book order. -/
def allEvents (s : SeedData) : List DutyEvent :=
  s.logBooks.flatMap LogBook.dutyEvents

/-- The event a single row contributes, if any: present exactly when the
timestamp parses, the status code is in the known four-code set, and every
numeric cell is missing or numeric. -/
def mkEvent (r : Row) : Option DutyEvent :=
  r.timestamp.toOption.bind fun ts => (statusOf r).bind fun s =>
    buildEvent ts s r

/-- The calendar date of a row, when its timestamp parses. -/
def rowDate (r : Row) : Option Nat :=
  r.timestamp.toOption.map Timestamp.day

/-- The calendar dates of the rows whose timestamps parse, in row order. -/
def datesOf (rows : List Row) : List Nat :=
  rows.filterMap rowDate

/-- No row of the input has a missing `Timestamp_EDT` cell (rows with
unparseable timestamp text are still allowed: those are caught before any
state is touched). -/
def noMissingTs (rows : List Row) : Prop :=
  ∀ r ∈ rows, r.timestamp ≠ TsCell.missing

instance (rows : List Row) : Decidable (noMissingTs rows) :=
  inferInstanceAs (Decidable (∀ r ∈ rows, r.timestamp ≠ TsCell.missing))

/-- A row on which the `try` block of the fold raises in isolation: its
timestamp text fails to parse (caught before any state change), or its
status code is in the known set but a numeric conversion raises (the
date-change effect persists; only the row's event is dropped).  A row with
a missing timestamp also raises, but not in isolation — it first appends
the open log book — and is therefore not listed here (see C7). -/
def rowFails (r : Row) : Bool :=
  match r.timestamp with
  | .invalid => true
  | .missing => false
  | .val _ => (statusOf r).isSome && (mkEvent r).isNone

/-- Specification-side description of the fold (from the documented
contract): scanning the rows in order while tracking the current calendar
date, the rows at which the date changes — each such row closes the current
log book and opens a new one for its date.  Rows without a parsed
timestamp contribute nothing here; the source, by contrast, re-appends the
open log book on every missing-timestamp row, which is why the claims that
use this description are restricted to inputs without missing
timestamps. -/
def dateChanges (cur : Option Nat) : List Row → List (Nat × Row)
  | [] => []
  | r :: rest =>
    match r.timestamp.toOption with
    | none => dateChanges cur rest
    | some ts =>
      if cur = some ts.day then dateChanges cur rest
      else (ts.day, r) :: dateChanges (some ts.day) rest

/-- The calendar-date trace of `dateChanges`: the dates at which a new log
book is opened. -/
def runDates (cur : Option Nat) : List Nat → List Nat
  | [] => []
  | d :: ds =>
    if cur = some d then runDates cur ds
    else d :: runDates (some d) ds

/-! ## The spreadsheet loader and the CSV reader -/

/-- The fixed ordered list of 17 column names that `parse_eld_data` assigns
positionally (`df.columns = [...]`). -/
def eldColumns : List String :=
  ["ELD_ID", "App_Version", "Timestamp_EDT", "CoDriver", "Tractor_Number",
   "Engine_Hours", "Odometer_Miles", "New_Status", "Location", "Latitude",
   "Longitude", "Event_Status", "Event_Origin", "Event_Type", "Event_Code",
   "Verified_Timestamp_EDT", "DM_Code"]

/-- `pd.read_csv(filename, skiprows=k)` with the default header inference:
the first `k` lines are skipped, the next line becomes the (consumed)
header row that determines the column count, and the lines after it are the
data rows.  `none` models pandas raising (`EmptyDataError`) when nothing is
left. -/
def read_csv_skiprows (k : Nat) (lines : List (List String)) :
    Option (List String × List (List String)) :=
  match lines.drop k with
  | [] => none
  | hdr :: data => some (hdr, data)

/-- The reading phase of `parse_eld_data()`:
`pd.read_csv('driver_records.csv', skiprows=5)` followed by
`df.columns = [...]`.  The renaming is purely positional and raises
(`none`) unless the frame has exactly 17 columns; each retained data row is
returned with its cells paired positionally with the fixed column names. -/
def parse_eld_data (lines : List (List String)) :
    Option (List (List (String × String))) :=
  match read_csv_skiprows 5 lines with
  | none => none
  | some (hdr, data) =>
    if hdr.length = 17 then
      some (data.map (fun row => eldColumns.zip row))
    else none

/-- What `read_excel_file` returns: the single first-sheet frame, or the
per-sheet dictionary when several sheets exist. -/
inductive LoaderOutcome where
  | single : List (List String) → LoaderOutcome
  | multi : List (String × List (List String)) → LoaderOutcome
  deriving DecidableEq, Repr

/-- One run of the loader: its return value, the sidecar files it wrote,
and the number of per-sheet summary blocks it printed. -/
structure LoaderRun where
  outcome : LoaderOutcome
  filesWritten : List String
  sheetSummaries : Nat
  deriving DecidableEq, Repr

/-- `read_excel_file(filename)` after a successful open, on a workbook
given as its list of (sheet name, sheet rows): exactly one sheet writes the
two sidecar files and returns the frame; otherwise every sheet is
summarised to the console and nothing is written. -/
def read_excel_file (sheets : List (String × List (List String))) :
    LoaderRun :=
  if sheets.length = 1 then
    { outcome := .single (sheets.headD ("", [])).2
      filesWritten := ["driver_records.json", "driver_records.csv"]
      sheetSummaries := 0 }
  else
    { outcome := .multi sheets
      filesWritten := []
      sheetSummaries := sheets.length }

/-! ## Derived views of the fold state -/

/-- The shape of a log book that the fold determines at opening time: its
calendar date and its resolved asset position. -/
def bookKey (lb : LogBook) : Nat × Option Nat :=
  (lb.logDate, lb.vehicleId)

/-- All duty events currently stored in the state (closed log books plus
the open one), in order. -/
def stEvents (st : FoldState) : List DutyEvent :=
  (finalBooks st).flatMap LogBook.dutyEvents

/-- The loop invariant of `generate_seed_data`: whenever the tracked
`current_date` holds a calendar date (it is `none` initially and again
after a missing-timestamp row set it to `NaT`), the open log book exists
and carries exactly that date. -/
def InvW (st : FoldState) : Prop :=
  ∀ d, st.current_date = some d → st.current_log.map LogBook.logDate = some d

/-- Every stored event sits in a log book of its own calendar date. -/
def booksOk (st : FoldState) : Prop :=
  ∀ lb ∈ finalBooks st, ∀ e ∈ lb.dutyEvents, e.timestamp.day = lb.logDate

/-! ## Small facts about the cell conversions and the status map -/

theorem duty_status_map_isSome {s : String} :
    (duty_status_map s).isSome ↔ s ∈ (["ON", "OFF", "D", "SB"] : List String) := by
  unfold duty_status_map
  split_ifs with h1 h2 h3 h4 <;> simp_all

theorem statusOf_isSome {r : Row} :
    (statusOf r).isSome ↔
      ∃ s, r.newStatus = some s ∧ s ∈ (["ON", "OFF", "D", "SB"] : List String) := by
  unfold statusOf
  cases hs : r.newStatus with
  | none => simp
  | some s => simpa using duty_status_map_isSome

theorem buildEvent_eq_some {ts : Timestamp} {s : String} {r : Row}
    {e : DutyEvent} (h : buildEvent ts s r = some e) :
    e.timestamp = ts ∧ e.status = s := by
  unfold buildEvent at h
  split at h
  · injection h with h
    subst h
    exact ⟨rfl, rfl⟩
  · exact absurd h (by simp)

theorem buildEvent_isSome {ts : Timestamp} {s : String} {r : Row} :
    (buildEvent ts s r).isSome ↔
      (pyFloatOpt r.latitude).isSome ∧ (pyFloatOpt r.longitude).isSome ∧
      (pyFloatOpt r.odometerMiles).isSome ∧ (pyFloatOpt r.engineHours).isSome := by
  unfold buildEvent
  cases pyFloatOpt r.latitude <;> cases pyFloatOpt r.longitude <;>
    cases pyFloatOpt r.odometerMiles <;> cases pyFloatOpt r.engineHours <;> simp

theorem tsCell_toOption_eq_some {c : TsCell} {ts : Timestamp} :
    c.toOption = some ts ↔ c = TsCell.val ts := by
  cases c <;> simp [TsCell.toOption]

theorem mkEvent_eq_some {r : Row} {e : DutyEvent} (h : mkEvent r = some e) :
    ∃ ts s, r.timestamp = TsCell.val ts ∧ statusOf r = some s ∧
      buildEvent ts s r = some e := by
  simp only [mkEvent, Option.bind_eq_some] at h
  obtain ⟨ts, hts, s, hs, hb⟩ := h
  exact ⟨ts, s, tsCell_toOption_eq_some.mp hts, hs, hb⟩

theorem mkEvent_none_of_ts_not_val {r : Row} (h : r.timestamp.toOption = none) :
    mkEvent r = none := by
  simp [mkEvent, h]

theorem mkEvent_isSome {r : Row} :
    (mkEvent r).isSome ↔
      (r.timestamp.toOption.isSome ∧ (statusOf r).isSome ∧
       (pyFloatOpt r.latitude).isSome ∧ (pyFloatOpt r.longitude).isSome ∧
       (pyFloatOpt r.odometerMiles).isSome ∧ (pyFloatOpt r.engineHours).isSome) := by
  unfold mkEvent
  cases hts : r.timestamp.toOption with
  | none => simp
  | some ts =>
    cases hs : statusOf r with
    | none => simp
    | some s => simpa using buildEvent_isSome

theorem rowFails_mkEvent {r : Row} (h : rowFails r = true) : mkEvent r = none := by
  unfold rowFails at h
  cases hc : r.timestamp with
  | invalid =>
    exact mkEvent_none_of_ts_not_val (by simp [hc, TsCell.toOption])
  | missing =>
    rw [hc] at h
    simp at h
  | val ts =>
    rw [hc] at h
    simp only [Bool.and_eq_true] at h
    exact Option.isNone_iff_eq_none.mp h.2

theorem rowFails_not_missing {r : Row} (h : rowFails r = true) :
    r.timestamp ≠ TsCell.missing := by
  intro hc
  unfold rowFails at h
  rw [hc] at h
  simp at h

/-! ## Step lemmas for `processRow` -/

theorem processRow_ts_invalid {assets : List Asset} {st : FoldState} {r : Row}
    (h : r.timestamp = TsCell.invalid) : processRow assets st r = st := by
  simp [processRow, h]

theorem processRow_ts_missing {assets : List Asset} {st : FoldState} {r : Row}
    (h : r.timestamp = TsCell.missing) :
    processRow assets st r =
      { log_books := st.log_books ++ st.current_log.toList
        current_date := none
        current_log := st.current_log } := by
  simp [processRow, h]

theorem processRow_ts_val_none {assets : List Asset} {st : FoldState}
    {r : Row} {ts : Timestamp} (hts : r.timestamp = TsCell.val ts)
    (hev : mkEvent r = none) :
    processRow assets st r = stepBooks assets st r ts.day := by
  unfold processRow
  rw [hts]
  cases hs : statusOf r with
  | none => rfl
  | some s =>
    simp only [mkEvent, hts, TsCell.toOption, hs, Option.bind_some,
      Option.some_bind] at hev
    simp [hs, hev]

theorem processRow_ts_val_some {assets : List Asset} {st : FoldState}
    {r : Row} {ts : Timestamp} {ev : DutyEvent}
    (hts : r.timestamp = TsCell.val ts) (hev : mkEvent r = some ev) :
    processRow assets st r = appendEvent (stepBooks assets st r ts.day) ev := by
  obtain ⟨ts', s, hts', hs, hb⟩ := mkEvent_eq_some hev
  rw [hts] at hts'
  injection hts' with h
  subst h
  unfold processRow
  rw [hts]
  simp [hs, hb]

/-! ## Effect of the two halves of a step on the state -/

theorem finalBooks_stepBooks (assets : List Asset) (st : FoldState) (r : Row)
    (d : Nat) :
    finalBooks (stepBooks assets st r d) =
      if st.current_date = some d then finalBooks st
      else finalBooks st ++ [openBook assets r d] := by
  unfold stepBooks finalBooks
  split <;> simp

theorem stepBooks_current_date (assets : List Asset) (st : FoldState)
    (r : Row) (d : Nat) : (stepBooks assets st r d).current_date = some d := by
  unfold stepBooks
  split
  · next h => exact h
  · rfl

theorem stepBooks_log_logDate {assets : List Asset} {st : FoldState} {r : Row}
    {d : Nat} (h : InvW st) :
    (stepBooks assets st r d).current_log.map LogBook.logDate = some d := by
  unfold stepBooks
  split
  · next hd => exact h d hd
  · simp [openBook]

theorem invW_stepBooks {assets : List Asset} {st : FoldState} {r : Row}
    {d : Nat} (h : InvW st) : InvW (stepBooks assets st r d) := by
  intro d' hd'
  rw [stepBooks_current_date] at hd'
  injection hd' with hd2
  subst hd2
  exact stepBooks_log_logDate h

theorem stEvents_stepBooks (assets : List Asset) (st : FoldState) (r : Row)
    (d : Nat) : stEvents (stepBooks assets st r d) = stEvents st := by
  unfold stEvents
  rw [finalBooks_stepBooks]
  split
  · rfl
  · simp [openBook]

theorem appendEvent_current_date (st : FoldState) (ev : DutyEvent) :
    (appendEvent st ev).current_date = st.current_date := rfl

theorem invW_appendEvent {st : FoldState} {ev : DutyEvent} (h : InvW st) :
    InvW (appendEvent st ev) := by
  intro d hd
  rw [appendEvent_current_date] at hd
  have h2 := h d hd
  unfold appendEvent
  cases hcl : st.current_log with
  | none => rw [hcl] at h2; simp at h2
  | some lb =>
    rw [hcl] at h2
    simp at h2 ⊢
    exact h2

theorem appendEvent_books_key (st : FoldState) (ev : DutyEvent) :
    (finalBooks (appendEvent st ev)).map bookKey =
      (finalBooks st).map bookKey := by
  unfold finalBooks appendEvent
  cases hcl : st.current_log <;> simp [hcl, bookKey]

theorem stEvents_appendEvent {st : FoldState} {ev : DutyEvent}
    (h : st.current_log.isSome) :
    stEvents (appendEvent st ev) = stEvents st ++ [ev] := by
  unfold stEvents finalBooks appendEvent
  cases hcl : st.current_log with
  | none => rw [hcl] at h; simp at h
  | some lb => simp [hcl]

/-! ## The chronological order -/

theorem timestamp_le_iff {a b : Timestamp} :
    Timestamp.le a b = true ↔
      (a.day < b.day ∨ (a.day = b.day ∧ a.tod ≤ b.tod)) := by
  simp [Timestamp.le]

theorem rowLe_trans {a b c : Row} (hab : rowLe a b = true)
    (hbc : rowLe b c = true) : rowLe a c = true := by
  unfold rowLe at *
  cases ha : a.timestamp <;> cases hb : b.timestamp <;> cases hc : c.timestamp <;>
    simp_all [Timestamp.le] <;> omega

theorem rowLe_total (a b : Row) : rowLe a b = true ∨ rowLe b a = true := by
  unfold rowLe
  cases ha : a.timestamp <;> cases hb : b.timestamp <;>
    simp_all [Timestamp.le] <;> omega

instance : IsTrans Row RowLe :=
  ⟨fun _ _ _ => rowLe_trans⟩

instance : IsTotal Row RowLe :=
  ⟨rowLe_total⟩

theorem sortRows_sorted (rows : List Row) :
    List.Pairwise RowLe (sortRows rows) :=
  List.sorted_insertionSort RowLe rows

theorem sortRows_perm (rows : List Row) : (sortRows rows).Perm rows :=
  List.perm_insertionSort RowLe rows

theorem datesOf_sortRows_pairwise (rows : List Row) :
    List.Pairwise (· ≤ ·) (datesOf (sortRows rows)) := by
  refine List.Pairwise.filterMap rowDate ?_ (sortRows_sorted rows)
  intro a b hab x hx y hy
  unfold rowDate at hx hy
  unfold RowLe rowLe at hab
  cases hta : a.timestamp with
  | missing => rw [hta] at hx; simp [TsCell.toOption] at hx
  | invalid => rw [hta] at hx; simp [TsCell.toOption] at hx
  | val tsa =>
    cases htb : b.timestamp with
    | missing => rw [htb] at hy; simp [TsCell.toOption] at hy
    | invalid => rw [htb] at hy; simp [TsCell.toOption] at hy
    | val tsb =>
      rw [hta] at hx
      rw [htb] at hy
      simp [TsCell.toOption] at hx hy
      rw [hta, htb] at hab
      have hab2 : Timestamp.le tsa tsb = true := hab
      simp only [timestamp_le_iff] at hab2
      omega

theorem datesOf_sortRows_perm (rows : List Row) :
    (datesOf (sortRows rows)).Perm (datesOf rows) :=
  (sortRows_perm rows).filterMap rowDate

/-! ## Master lemmas about the fold -/

theorem invW_processRow {assets : List Asset} {st : FoldState} {r : Row}
    (h : InvW st) : InvW (processRow assets st r) := by
  cases hts : r.timestamp with
  | invalid => rw [processRow_ts_invalid hts]; exact h
  | missing =>
    rw [processRow_ts_missing hts]
    intro d hd
    simp at hd
  | val ts =>
    cases hev : mkEvent r with
    | none => rw [processRow_ts_val_none hts hev]; exact invW_stepBooks h
    | some ev =>
      rw [processRow_ts_val_some hts hev]
      exact invW_appendEvent (invW_stepBooks h)

theorem stepBooks_log_isSome {assets : List Asset} {st : FoldState} {r : Row}
    {d : Nat} (h : InvW st) :
    ((stepBooks assets st r d).current_log).isSome := by
  have hd := @stepBooks_log_logDate assets st r d h
  cases hcl : (stepBooks assets st r d).current_log
  · rw [hcl] at hd; simp at hd
  · simp

theorem processRow_current_date {assets : List Asset} {st : FoldState}
    {r : Row} {ts : Timestamp} (hts : r.timestamp = TsCell.val ts) :
    (processRow assets st r).current_date = some ts.day := by
  cases hev : mkEvent r with
  | none => rw [processRow_ts_val_none hts hev, stepBooks_current_date]
  | some ev =>
    rw [processRow_ts_val_some hts hev, appendEvent_current_date,
      stepBooks_current_date]

theorem stEvents_foldl (assets : List Asset) :
    ∀ (rows : List Row) (st : FoldState), InvW st →
      (∀ g ∈ rows, g.timestamp ≠ TsCell.missing) →
      stEvents (List.foldl (processRow assets) st rows) =
        stEvents st ++ rows.filterMap mkEvent := by
  intro rows
  induction rows with
  | nil => intro st _ _; simp
  | cons r rest ih =>
    intro st h hnm
    have hr : r.timestamp ≠ TsCell.missing := hnm r (List.mem_cons_self _ _)
    have hrest : ∀ g ∈ rest, g.timestamp ≠ TsCell.missing :=
      fun g hg => hnm g (List.mem_cons_of_mem _ hg)
    rw [List.foldl_cons]
    cases hts : r.timestamp with
    | missing => exact absurd hts hr
    | invalid =>
      have hmk : mkEvent r = none :=
        mkEvent_none_of_ts_not_val (by simp [hts, TsCell.toOption])
      rw [processRow_ts_invalid hts, ih st h hrest]
      simp [List.filterMap_cons, hmk]
    | val ts =>
      cases hev : mkEvent r with
      | none =>
        rw [processRow_ts_val_none hts hev, ih _ (invW_stepBooks h) hrest,
          stEvents_stepBooks]
        simp [List.filterMap_cons, hev]
      | some ev =>
        rw [processRow_ts_val_some hts hev,
          ih _ (invW_appendEvent (invW_stepBooks h)) hrest,
          stEvents_appendEvent (stepBooks_log_isSome h), stEvents_stepBooks]
        simp [List.filterMap_cons, hev]

theorem books_foldl (assets : List Asset) :
    ∀ (rows : List Row) (st : FoldState),
      (∀ g ∈ rows, g.timestamp ≠ TsCell.missing) →
      (finalBooks (List.foldl (processRow assets) st rows)).map bookKey =
        (finalBooks st).map bookKey ++
          (dateChanges st.current_date rows).map
            (fun p => (p.1, resolveVehicle assets p.2)) := by
  intro rows
  induction rows with
  | nil => intro st _; simp [dateChanges]
  | cons r rest ih =>
    intro st hnm
    have hr : r.timestamp ≠ TsCell.missing := hnm r (List.mem_cons_self _ _)
    have hrest : ∀ g ∈ rest, g.timestamp ≠ TsCell.missing :=
      fun g hg => hnm g (List.mem_cons_of_mem _ hg)
    rw [List.foldl_cons]
    cases hts : r.timestamp with
    | missing => exact absurd hts hr
    | invalid =>
      have htso : r.timestamp.toOption = none := by simp [hts, TsCell.toOption]
      rw [processRow_ts_invalid hts, ih st hrest]
      simp [dateChanges, htso]
    | val ts =>
      have htso : r.timestamp.toOption = some ts := by
        simp [hts, TsCell.toOption]
      have hbooks : (finalBooks (processRow assets st r)).map bookKey =
          if st.current_date = some ts.day then (finalBooks st).map bookKey
          else (finalBooks st).map bookKey ++
            [(ts.day, resolveVehicle assets r)] := by
        cases hev : mkEvent r with
        | none =>
          rw [processRow_ts_val_none hts hev, finalBooks_stepBooks]
          split <;> simp [openBook, bookKey]
        | some ev =>
          rw [processRow_ts_val_some hts hev, appendEvent_books_key,
            finalBooks_stepBooks]
          split <;> simp [openBook, bookKey]
      rw [ih (processRow assets st r) hrest, hbooks,
        @processRow_current_date assets st r ts hts]
      by_cases hcd : st.current_date = some ts.day
      · rw [if_pos hcd]
        simp [dateChanges, htso, hcd]
      · rw [if_neg hcd]
        simp [dateChanges, htso, hcd, List.append_assoc]

theorem booksOk_processRow {assets : List Asset} {st : FoldState} {r : Row}
    (hInv : InvW st) (h : booksOk st) : booksOk (processRow assets st r) := by
  cases hts : r.timestamp with
  | invalid => rw [processRow_ts_invalid hts]; exact h
  | missing =>
    rw [processRow_ts_missing hts]
    intro lb hlb e he
    have hlb2 : lb ∈ finalBooks st := by
      unfold finalBooks at hlb ⊢
      simp only at hlb
      rcases List.mem_append.mp hlb with h' | h'
      · exact h'
      · exact List.mem_append_right _ h'
    exact h lb hlb2 e he
  | val ts =>
    have h1 : booksOk (stepBooks assets st r ts.day) := by
      unfold booksOk
      rw [finalBooks_stepBooks]
      split
      · exact h
      · intro lb hlb e he
        rcases List.mem_append.mp hlb with h' | h'
        · exact h lb h' e he
        · rw [List.mem_singleton] at h'
          subst h'
          simp [openBook] at he
    cases hev : mkEvent r with
    | none => rw [processRow_ts_val_none hts hev]; exact h1
    | some ev =>
      rw [processRow_ts_val_some hts hev]
      have hevts : ev.timestamp = ts := by
        obtain ⟨ts', s, hts', hs, hb⟩ := mkEvent_eq_some hev
        rw [hts] at hts'
        injection hts' with hh
        subst hh
        exact (buildEvent_eq_some hb).1
      have hdate :=
        @stepBooks_log_logDate assets st r ts.day hInv
      set st1 := stepBooks assets st r ts.day with hst1
      cases hcl : st1.current_log with
      | none => rw [hcl] at hdate; simp at hdate
      | some lb =>
        rw [hcl] at hdate
        have hdate2 : lb.logDate = ts.day := by simpa using hdate
        intro lb2 hlb2 e he
        have hlb2' :
            lb2 ∈ st1.log_books ++
              [{ lb with dutyEvents := lb.dutyEvents ++ [ev] }] := by
          simpa [appendEvent, finalBooks, hcl] using hlb2
        rcases List.mem_append.mp hlb2' with h' | h'
        · exact h1 lb2 (by unfold finalBooks; exact List.mem_append_left _ h') e he
        · rw [List.mem_singleton] at h'
          subst h'
          have he2 : e ∈ lb.dutyEvents ++ [ev] := he
          rcases List.mem_append.mp he2 with he' | he'
          · have := h1 lb (by unfold finalBooks; rw [hcl]; simp) e he'
            simpa using this
          · rw [List.mem_singleton] at he'
            subst he'
            simp [hevts, hdate2]

theorem booksOk_foldl (assets : List Asset) :
    ∀ (rows : List Row) (st : FoldState), InvW st → booksOk st →
      booksOk (List.foldl (processRow assets) st rows) := by
  intro rows
  induction rows with
  | nil => intro st _ h; exact h
  | cons r rest ih =>
    intro st hInv h
    rw [List.foldl_cons]
    exact ih _ (invW_processRow hInv) (booksOk_processRow hInv h)

/-! ## Events and book dates are preserved and traceable, duplicates or
not: facts that hold of the fold with the missing-timestamp error path
included -/

theorem stEvents_appendEvent_mem {st : FoldState} {ev : DutyEvent}
    {x : DutyEvent} (hx : x ∈ stEvents st) :
    x ∈ stEvents (appendEvent st ev) := by
  cases hcl : st.current_log with
  | none =>
    have : stEvents (appendEvent st ev) = stEvents st := by
      unfold stEvents finalBooks appendEvent
      rw [hcl]
      simp
    rw [this]
    exact hx
  | some lb =>
    rw [stEvents_appendEvent (by simp [hcl])]
    exact List.mem_append_left _ hx

theorem stEvents_missing (st : FoldState) :
    stEvents
      { log_books := st.log_books ++ st.current_log.toList
        current_date := none
        current_log := st.current_log } =
      stEvents st ++ st.current_log.toList.flatMap LogBook.dutyEvents := by
  unfold stEvents finalBooks
  simp [List.flatMap_append]

theorem stEvents_processRow_mem {assets : List Asset} {st : FoldState}
    {r : Row} {x : DutyEvent} (hx : x ∈ stEvents st) :
    x ∈ stEvents (processRow assets st r) := by
  cases hts : r.timestamp with
  | invalid => rw [processRow_ts_invalid hts]; exact hx
  | missing =>
    rw [processRow_ts_missing hts, stEvents_missing]
    exact List.mem_append_left _ hx
  | val ts =>
    cases hev : mkEvent r with
    | none =>
      rw [processRow_ts_val_none hts hev, stEvents_stepBooks]
      exact hx
    | some ev =>
      rw [processRow_ts_val_some hts hev]
      refine stEvents_appendEvent_mem ?_
      rw [stEvents_stepBooks]
      exact hx

theorem stEvents_foldl_mem (assets : List Asset) :
    ∀ (rows : List Row) (st : FoldState) (x : DutyEvent),
      x ∈ stEvents st →
      x ∈ stEvents (List.foldl (processRow assets) st rows) := by
  intro rows
  induction rows with
  | nil => intro st x hx; exact hx
  | cons r rest ih =>
    intro st x hx
    rw [List.foldl_cons]
    exact ih _ x (stEvents_processRow_mem hx)

theorem mem_stEvents_insert {assets : List Asset} {st : FoldState} {r : Row}
    {ts : Timestamp} {ev : DutyEvent} (h : InvW st)
    (hts : r.timestamp = TsCell.val ts) (hev : mkEvent r = some ev) :
    ev ∈ stEvents (processRow assets st r) := by
  rw [processRow_ts_val_some hts hev,
    stEvents_appendEvent (stepBooks_log_isSome h)]
  simp

theorem mem_stEvents_foldl (assets : List Asset) :
    ∀ (rows : List Row) (st : FoldState) (r : Row) (ev : DutyEvent),
      InvW st → r ∈ rows → mkEvent r = some ev →
      ev ∈ stEvents (List.foldl (processRow assets) st rows) := by
  intro rows
  induction rows with
  | nil => intro st r ev _ h _; simp at h
  | cons g rest ih =>
    intro st r ev hinv hr hev
    rw [List.foldl_cons]
    rcases List.mem_cons.mp hr with h | h
    · subst h
      obtain ⟨ts, s, hts, _, _⟩ := mkEvent_eq_some hev
      exact stEvents_foldl_mem assets rest _ ev (mem_stEvents_insert hinv hts hev)
    · exact ih _ r ev (invW_processRow hinv) h hev

theorem stEvents_processRow_origin {assets : List Asset} {st : FoldState}
    {r : Row} {x : DutyEvent}
    (hx : x ∈ stEvents (processRow assets st r)) :
    x ∈ stEvents st ∨ mkEvent r = some x := by
  cases hts : r.timestamp with
  | invalid =>
    rw [processRow_ts_invalid hts] at hx
    exact Or.inl hx
  | missing =>
    rw [processRow_ts_missing hts, stEvents_missing] at hx
    left
    rcases List.mem_append.mp hx with h' | h'
    · exact h'
    · unfold stEvents finalBooks
      rw [List.flatMap_append]
      exact List.mem_append_right _ h'
  | val ts =>
    cases hev : mkEvent r with
    | none =>
      rw [processRow_ts_val_none hts hev, stEvents_stepBooks] at hx
      exact Or.inl hx
    | some ev =>
      rw [processRow_ts_val_some hts hev] at hx
      cases hcl : (stepBooks assets st r ts.day).current_log with
      | none =>
        have heq : stEvents (appendEvent (stepBooks assets st r ts.day) ev) =
            stEvents (stepBooks assets st r ts.day) := by
          unfold stEvents finalBooks appendEvent
          rw [hcl]
          simp
        rw [heq, stEvents_stepBooks] at hx
        exact Or.inl hx
      | some lb =>
        rw [stEvents_appendEvent (by simp [hcl]), stEvents_stepBooks] at hx
        rcases List.mem_append.mp hx with h' | h'
        · exact Or.inl h'
        · rw [List.mem_singleton] at h'
          subst h'
          exact Or.inr rfl

theorem stEvents_foldl_origin (assets : List Asset) :
    ∀ (rows : List Row) (st : FoldState) (x : DutyEvent),
      x ∈ stEvents (List.foldl (processRow assets) st rows) →
      x ∈ stEvents st ∨ ∃ r ∈ rows, mkEvent r = some x := by
  intro rows
  induction rows with
  | nil => intro st x hx; exact Or.inl hx
  | cons r rest ih =>
    intro st x hx
    rw [List.foldl_cons] at hx
    rcases ih _ x hx with h | ⟨g, hg, hgev⟩
    · rcases stEvents_processRow_origin h with h' | h'
      · exact Or.inl h'
      · exact Or.inr ⟨r, List.mem_cons_self _ _, h'⟩
    · exact Or.inr ⟨g, List.mem_cons_of_mem _ hg, hgev⟩

/-- The calendar dates of the log books held in the state. -/
def bookDates (st : FoldState) : List Nat :=
  (finalBooks st).map LogBook.logDate

theorem bookDates_appendEvent (st : FoldState) (ev : DutyEvent) :
    bookDates (appendEvent st ev) = bookDates st := by
  unfold bookDates finalBooks appendEvent
  cases hcl : st.current_log <;> simp [hcl]

theorem bookDates_processRow_mem {assets : List Asset} {st : FoldState}
    {r : Row} {d : Nat} (hd : d ∈ bookDates st) :
    d ∈ bookDates (processRow assets st r) := by
  cases hts : r.timestamp with
  | invalid => rw [processRow_ts_invalid hts]; exact hd
  | missing =>
    rw [processRow_ts_missing hts]
    unfold bookDates finalBooks at hd ⊢
    simp only at *
    rw [List.map_append]
    exact List.mem_append_left _ hd
  | val ts =>
    have hstep : d ∈ bookDates (stepBooks assets st r ts.day) := by
      unfold bookDates
      rw [finalBooks_stepBooks]
      split
      · exact hd
      · rw [List.map_append]
        exact List.mem_append_left _ hd
    cases hev : mkEvent r with
    | none => rw [processRow_ts_val_none hts hev]; exact hstep
    | some ev =>
      rw [processRow_ts_val_some hts hev, bookDates_appendEvent]
      exact hstep

theorem bookDates_foldl_mem (assets : List Asset) :
    ∀ (rows : List Row) (st : FoldState) (d : Nat),
      d ∈ bookDates st →
      d ∈ bookDates (List.foldl (processRow assets) st rows) := by
  intro rows
  induction rows with
  | nil => intro st d hd; exact hd
  | cons r rest ih =>
    intro st d hd
    rw [List.foldl_cons]
    exact ih _ d (bookDates_processRow_mem hd)

theorem mem_bookDates_of_log {st : FoldState} {d : Nat}
    (h : st.current_log.map LogBook.logDate = some d) :
    d ∈ bookDates st := by
  cases hcl : st.current_log with
  | none => rw [hcl] at h; simp at h
  | some lb =>
    rw [hcl] at h
    simp at h
    unfold bookDates finalBooks
    rw [hcl, List.map_append]
    refine List.mem_append_right _ ?_
    simp [h]

theorem mem_bookDates_step {assets : List Asset} {st : FoldState} {r : Row}
    {ts : Timestamp} (h : InvW st) (hts : r.timestamp = TsCell.val ts) :
    ts.day ∈ bookDates (processRow assets st r) := by
  have hlog := @stepBooks_log_logDate assets st r ts.day h
  cases hev : mkEvent r with
  | none =>
    rw [processRow_ts_val_none hts hev]
    exact mem_bookDates_of_log hlog
  | some ev =>
    rw [processRow_ts_val_some hts hev, bookDates_appendEvent]
    exact mem_bookDates_of_log hlog

theorem mem_bookDates_foldl (assets : List Asset) :
    ∀ (rows : List Row) (st : FoldState) (d : Nat), InvW st →
      d ∈ datesOf rows →
      d ∈ bookDates (List.foldl (processRow assets) st rows) := by
  intro rows
  induction rows with
  | nil => intro st d _ hd; simp [datesOf] at hd
  | cons r rest ih =>
    intro st d hinv hd
    rw [List.foldl_cons]
    unfold datesOf at hd
    rw [List.filterMap_cons] at hd
    cases hrd : rowDate r with
    | none =>
      rw [hrd] at hd
      exact ih _ d (invW_processRow hinv) hd
    | some v =>
      rw [hrd] at hd
      rcases List.mem_cons.mp hd with h | h
      · subst h
        unfold rowDate at hrd
        cases hts : r.timestamp with
        | missing => rw [hts] at hrd; simp [TsCell.toOption] at hrd
        | invalid => rw [hts] at hrd; simp [TsCell.toOption] at hrd
        | val ts =>
          rw [hts] at hrd
          simp [TsCell.toOption] at hrd
          subst hrd
          exact bookDates_foldl_mem assets rest _ _
            (mem_bookDates_step hinv hts)
      · exact ih _ d (invW_processRow hinv) h

/-! ## Counting the opened log books -/

theorem dateChanges_fst :
    ∀ (rows : List Row) (cur : Option Nat),
      (dateChanges cur rows).map Prod.fst = runDates cur (datesOf rows) := by
  intro rows
  induction rows with
  | nil => intro cur; simp [dateChanges, datesOf, runDates]
  | cons r rest ih =>
    intro cur
    cases hts : r.timestamp.toOption with
    | none =>
      have hd : rowDate r = none := by simp [rowDate, hts]
      have hdl : datesOf (r :: rest) = datesOf rest := by
        simp [datesOf, List.filterMap_cons, hd]
      have heq : dateChanges cur (r :: rest) = dateChanges cur rest := by
        simp only [dateChanges, hts]
      rw [heq, hdl]
      exact ih cur
    | some ts =>
      have hd : rowDate r = some ts.day := by simp [rowDate, hts]
      have hdl : datesOf (r :: rest) = ts.day :: datesOf rest := by
        simp [datesOf, List.filterMap_cons, hd]
      have heq : dateChanges cur (r :: rest) =
          if cur = some ts.day then dateChanges cur rest
          else (ts.day, r) :: dateChanges (some ts.day) rest := by
        simp only [dateChanges, hts]
      have heq2 : runDates cur (ts.day :: datesOf rest) =
          if cur = some ts.day then runDates cur (datesOf rest)
          else ts.day :: runDates (some ts.day) (datesOf rest) := rfl
      rw [heq, hdl, heq2]
      by_cases hc : cur = some ts.day
      · rw [if_pos hc, if_pos hc]
        exact ih cur
      · rw [if_neg hc, if_neg hc]
        simp [ih]

theorem mem_runDates :
    ∀ (ds : List Nat) (cur : Option Nat) (d : Nat), d ∈ ds →
      d ∈ runDates cur ds ∨ cur = some d := by
  intro ds
  induction ds with
  | nil => simp
  | cons e rest ih =>
    intro cur d hd
    unfold runDates
    by_cases hc : cur = some e
    · rw [if_pos hc]
      rcases List.mem_cons.mp hd with h | h
      · subst h; right; exact hc
      · exact ih cur d h
    · rw [if_neg hc]
      rcases List.mem_cons.mp hd with h | h
      · subst h; left; exact List.mem_cons_self _ _
      · rcases ih (some e) d h with h' | h'
        · left; exact List.mem_cons_of_mem _ h'
        · left
          injection h' with h''
          subst h''
          exact List.mem_cons_self _ _

theorem card_insert_erase (d : Nat) (s : Finset Nat) :
    (insert d s).card = (s.erase d).card + 1 := by
  by_cases h : d ∈ s
  · rw [Finset.insert_eq_self.mpr h, Finset.card_erase_of_mem h]
    have : 0 < s.card := Finset.card_pos.mpr ⟨d, h⟩
    omega
  · rw [Finset.card_insert_of_not_mem h, Finset.erase_eq_of_not_mem h]

theorem runDates_length_some :
    ∀ (ds : List Nat) (c : Nat), List.Pairwise (· ≤ ·) ds →
      (∀ x ∈ ds, c ≤ x) →
      (runDates (some c) ds).length = (ds.toFinset.erase c).card := by
  intro ds
  induction ds with
  | nil => intro c _ _; simp [runDates]
  | cons d rest ih =>
    intro c hp hle
    have hrest : List.Pairwise (· ≤ ·) rest := hp.of_cons
    have hd_le : ∀ x ∈ rest, d ≤ x := fun x hx => (List.pairwise_cons.mp hp).1 x hx
    unfold runDates
    by_cases hc : (some c : Option Nat) = some d
    · injection hc with hc'
      subst hc'
      rw [if_pos rfl, ih c hrest hd_le]
      congr 1
      ext x
      simp only [List.toFinset_cons, Finset.mem_erase, Finset.mem_insert,
        List.mem_toFinset]
      tauto
    · have hcd : c ≠ d := fun h => hc (by rw [h])
      have hclt : c < d :=
        lt_of_le_of_ne (hle d (List.mem_cons_self _ _)) hcd
      have hcnot : c ∉ (d :: rest).toFinset := by
        simp only [List.toFinset_cons, Finset.mem_insert, List.mem_toFinset]
        push_neg
        refine ⟨hcd, fun hcr => ?_⟩
        have := hd_le c hcr
        omega
      rw [if_neg hc, Finset.erase_eq_of_not_mem hcnot, List.length_cons,
        ih d hrest hd_le, List.toFinset_cons, card_insert_erase]

theorem runDates_length_none (ds : List Nat)
    (hp : List.Pairwise (· ≤ ·) ds) :
    (runDates none ds).length = ds.toFinset.card := by
  cases ds with
  | nil => simp [runDates]
  | cons d rest =>
    unfold runDates
    rw [if_neg (by simp), List.length_cons,
      runDates_length_some rest d hp.of_cons
        (fun x hx => (List.pairwise_cons.mp hp).1 x hx),
      List.toFinset_cons, card_insert_erase]

/-! ## The asset list -/

theorem uniqueFirst_nodup (l : List String) : (uniqueFirst l).Nodup := by
  unfold uniqueFirst
  exact (List.nodup_reverse).mpr (List.nodup_dedup _)

theorem uniqueFirst_toFinset (l : List String) :
    (uniqueFirst l).toFinset = l.toFinset := by
  unfold uniqueFirst
  ext x
  simp [List.mem_toFinset, List.mem_dedup]

theorem uniqueFirst_length (l : List String) :
    (uniqueFirst l).length = l.toFinset.card := by
  unfold uniqueFirst
  rw [List.length_reverse, ← List.card_toFinset, List.toFinset_reverse]

theorem assets_vehicleNumbers (rows : List Row) :
    (assets_data rows).map Asset.vehicleNumber =
      uniqueFirst (rows.filterMap Row.tractorNumber) := by
  unfold assets_data
  rw [List.map_map]
  have h : Asset.vehicleNumber ∘ mkAsset rows = id := funext fun t => rfl
  rw [h, List.map_id]

/-! ## Characterisations of the generated document -/

theorem generate_logBooks (rows : List Row) :
    (generate_seed_data rows).logBooks =
      finalBooks ((sortRows rows).foldl (processRow (assets_data rows))
        ⟨[], none, none⟩) := rfl

theorem invW_init : InvW ⟨[], none, none⟩ := by
  intro d hd
  simp at hd

theorem noMissing_sortRows {rows : List Row} (hnm : noMissingTs rows) :
    ∀ g ∈ sortRows rows, g.timestamp ≠ TsCell.missing :=
  fun g hg => hnm g ((sortRows_perm rows).mem_iff.mp hg)

theorem allEvents_generate (rows : List Row) (hnm : noMissingTs rows) :
    allEvents (generate_seed_data rows) = (sortRows rows).filterMap mkEvent := by
  have h := stEvents_foldl (assets_data rows) (sortRows rows)
    ⟨[], none, none⟩ invW_init (noMissing_sortRows hnm)
  unfold stEvents at h
  simp only [finalBooks] at h
  unfold allEvents
  rw [generate_logBooks]
  unfold finalBooks
  simpa using h

theorem logBooks_key_generate (rows : List Row) (hnm : noMissingTs rows) :
    (generate_seed_data rows).logBooks.map bookKey =
      (dateChanges none (sortRows rows)).map
        (fun p => (p.1, resolveVehicle (assets_data rows) p.2)) := by
  have h := books_foldl (assets_data rows) (sortRows rows) ⟨[], none, none⟩
    (noMissing_sortRows hnm)
  rw [generate_logBooks]
  simpa [finalBooks] using h

theorem logBooks_dates_generate (rows : List Row) (hnm : noMissingTs rows) :
    (generate_seed_data rows).logBooks.map LogBook.logDate =
      runDates none (datesOf (sortRows rows)) := by
  have h := logBooks_key_generate rows hnm
  have h2 : (generate_seed_data rows).logBooks.map LogBook.logDate =
      ((generate_seed_data rows).logBooks.map bookKey).map Prod.fst := by
    rw [List.map_map]; rfl
  rw [h2, h, List.map_map, ← dateChanges_fst]
  rfl

theorem booksOk_generate (rows : List Row) :
    ∀ lb ∈ (generate_seed_data rows).logBooks,
      ∀ e ∈ lb.dutyEvents, e.timestamp.day = lb.logDate := by
  have h := booksOk_foldl (assets_data rows) (sortRows rows) ⟨[], none, none⟩
    invW_init (by intro lb hlb; simp [finalBooks] at hlb)
  rw [generate_logBooks]
  exact h

theorem mem_logDate_generate {rows : List Row} {d : Nat}
    (hd : d ∈ datesOf (sortRows rows)) :
    ∃ lb ∈ (generate_seed_data rows).logBooks, lb.logDate = d := by
  have hmem : d ∈ (generate_seed_data rows).logBooks.map LogBook.logDate := by
    have h := mem_bookDates_foldl (assets_data rows) (sortRows rows)
      ⟨[], none, none⟩ d invW_init hd
    rw [generate_logBooks]
    exact h
  obtain ⟨lb, hlb, hdd⟩ := List.mem_map.mp hmem
  exact ⟨lb, hlb, hdd⟩

theorem mem_allEvents_generate {rows : List Row} {r : Row} {ev : DutyEvent}
    (hr : r ∈ rows) (hev : mkEvent r = some ev) :
    ev ∈ allEvents (generate_seed_data rows) := by
  have hr2 : r ∈ sortRows rows := (sortRows_perm rows).mem_iff.mpr hr
  have h := mem_stEvents_foldl (assets_data rows) (sortRows rows)
    ⟨[], none, none⟩ r ev invW_init hr2 hev
  unfold allEvents
  rw [generate_logBooks]
  exact h

theorem allEvents_origin_generate {rows : List Row} {e : DutyEvent}
    (he : e ∈ allEvents (generate_seed_data rows)) :
    ∃ r ∈ rows, mkEvent r = some e := by
  unfold allEvents at he
  rw [generate_logBooks] at he
  have h := stEvents_foldl_origin (assets_data rows) (sortRows rows)
    ⟨[], none, none⟩ e he
  rcases h with h | ⟨r, hr, hrev⟩
  · simp [stEvents, finalBooks] at h
  · exact ⟨r, (sortRows_perm rows).mem_iff.mp hr, hrev⟩

/-! ## Concrete sample data for witnesses and counterexamples -/

/-- A well-formed row: parseable timestamp, recognised code `D`, a missing
latitude and odometer, present longitude and engine hours. -/
def okRow : Row :=
  { eldId := some "E7", timestamp := TsCell.val ⟨3, 4⟩,
    tractorNumber := some "55", engineHours := some (some 9),
    odometerMiles := none, newStatus := some "D",
    location := some "I-35 N, Austin, TX", latitude := none,
    longitude := some (some 5) }

/-- The duty event `okRow` contributes. -/
def okRowEvent : DutyEvent :=
  { timestamp := ⟨3, 4⟩, status := "DRIVING", latitude := none,
    longitude := some 5, address := some "I-35 N, Austin, TX",
    odometer := none, engineHours := some 9, source := "ELD",
    eldRecordId := some "E7" }

/-- The log book `okRow` produces on its own. -/
def okBook : LogBook :=
  { vehicleId := some 0, logDate := 3, dutyEvents := [okRowEvent],
    status := "ACTIVE" }

/-- A row with status code `ON` whose present `Latitude` cell is not
numeric, so `float(row['Latitude'])` raises inside the `try` block. -/
def badLatRow : Row :=
  { eldId := none, timestamp := TsCell.val ⟨0, 0⟩, tractorNumber := none,
    engineHours := none, odometerMiles := none, newStatus := some "ON",
    location := none, latitude := some none, longitude := none }

/-- A row whose `Timestamp_EDT` text fails to parse: `pd.to_datetime`
raises before any state is touched and the `except` handler skips the
row whole. -/
def badTsRow : Row :=
  { eldId := none, timestamp := TsCell.invalid, tractorNumber := some "9",
    engineHours := none, odometerMiles := none, newStatus := some "ON",
    location := none, latitude := none, longitude := none }

/-- A row with a missing `Timestamp_EDT` cell: `pd.to_datetime` returns
`NaT`, so the date-change block appends the open log book before
`NaT.strftime` raises. -/
def missingTsRow : Row :=
  { eldId := none, timestamp := TsCell.missing, tractorNumber := none,
    engineHours := none, odometerMiles := none, newStatus := some "ON",
    location := none, latitude := none, longitude := none }

/-- A late (date 9) recognised-status row whose present `Latitude` cell is
not numeric: its event is dropped, but it still opens the date-9 book. -/
def lateFailRow : Row :=
  { eldId := none, timestamp := TsCell.val ⟨9, 0⟩, tractorNumber := none,
    engineHours := none, odometerMiles := none, newStatus := some "ON",
    location := none, latitude := some none, longitude := none }

/-- A recognised-status row with missing latitude whose present
`Odometer_Miles` cell is not numeric, so `int(float(...))` raises. -/
def badOdoRow : Row :=
  { eldId := some "E9", timestamp := TsCell.val ⟨2, 0⟩,
    tractorNumber := some "55", engineHours := none,
    odometerMiles := some none, newStatus := some "ON", location := none,
    latitude := none, longitude := some (some 7) }

/-- A row with a parseable timestamp whose status code `LOGIN` is outside
the known four-code set. -/
def noStatusRow : Row :=
  { eldId := some "E2", timestamp := TsCell.val ⟨7, 0⟩,
    tractorNumber := some "55", engineHours := none, odometerMiles := none,
    newStatus := some "LOGIN", location := none, latitude := none,
    longitude := none }

/-- A recognised-status row with latitude, longitude and address missing. -/
def noLocRow : Row :=
  { eldId := some "E3", timestamp := TsCell.val ⟨4, 2⟩,
    tractorNumber := some "55", engineHours := none,
    odometerMiles := some (some 100), newStatus := some "SB",
    location := none, latitude := none, longitude := none }

/-! ## The claims -/

/-- C1, counterexample: the claim as stated fails on the code in two ways.
First, `badLatRow` has status code `ON` — one of the four known codes —
yet the document built from it holds no duty event at all: its present
non-numeric `Latitude` cell makes `float(row['Latitude'])` raise inside
the `try` block, and the handler drops the row's event.  Second, with
`okRow` (code `D`) followed by a missing-timestamp row, the clean row's
single event is serialized twice: the missing-timestamp row appends the
open log book before `NaT.strftime` raises, and the final flush appends
the same book again — not "exactly one DutyEvent" per recognised row. -/
theorem claim1_counterexample :
    (badLatRow.newStatus = some "ON" ∧
      allEvents (generate_seed_data [badLatRow]) = []) ∧
    (okRow.newStatus = some "D" ∧
      allEvents (generate_seed_data [okRow, missingTsRow]) =
        [okRowEvent, okRowEvent]) := by
  decide

/-- C1 (amended): provided no row of the input has a missing
`Timestamp_EDT` cell, the duty events of the seed document are exactly the
per-row events of the sorted rows, where a row contributes exactly one
event precisely when its timestamp parses, its status code is one of `ON`,
`OFF`, `D`, `SB`, and each of its four numeric cells is missing or
numeric; the event's status is the image of the row's code under the fixed
map and its timestamp is the row's.  Rows with a missing or unrecognised
code, and rows whose processing raises, contribute zero events.  (A
missing-timestamp row would additionally re-emit the open log book's
events — see the counterexample — which is why such rows are excluded.) -/
theorem claim1_duty_events (rows : List Row) (r : Row) (e : DutyEvent)
    (hnm : noMissingTs rows) :
    allEvents (generate_seed_data rows) = (sortRows rows).filterMap mkEvent
    ∧ ((mkEvent r).isSome ↔
        (r.timestamp.toOption.isSome ∧
         (∃ s, r.newStatus = some s ∧
            s ∈ (["ON", "OFF", "D", "SB"] : List String)) ∧
         (pyFloatOpt r.latitude).isSome ∧ (pyFloatOpt r.longitude).isSome ∧
         (pyFloatOpt r.odometerMiles).isSome ∧
         (pyFloatOpt r.engineHours).isSome))
    ∧ (mkEvent r = some e →
        ∃ ts s, r.timestamp = TsCell.val ts ∧ r.newStatus = some s ∧
          duty_status_map s = some e.status ∧ e.timestamp = ts) := by
  refine ⟨allEvents_generate rows hnm, ?_, ?_⟩
  · rw [mkEvent_isSome, statusOf_isSome]
  · intro h
    obtain ⟨ts, s0, hts, hstat, hb⟩ := mkEvent_eq_some h
    cases hns : r.newStatus with
    | none => unfold statusOf at hstat; rw [hns] at hstat; simp at hstat
    | some s =>
      have hmap : duty_status_map s = some s0 := by
        unfold statusOf at hstat
        rw [hns] at hstat
        simpa using hstat
      refine ⟨ts, s, hts, rfl, ?_, (buildEvent_eq_some hb).1⟩
      rw [(buildEvent_eq_some hb).2]
      exact hmap

/-- C1, witness for the amended statement: `okRow` (code `D`) contributes
the event `okRowEvent`, whose status `DRIVING` is the image of `D` under
the fixed map and whose timestamp is the row's. -/
theorem claim1_duty_events_witness :
    ∃ ts s, okRow.timestamp = TsCell.val ts ∧ okRow.newStatus = some s ∧
      duty_status_map s = some okRowEvent.status ∧ okRowEvent.timestamp = ts :=
  (claim1_duty_events [okRow] okRow okRowEvent (by decide)).2.2 (by decide)

/-- C2, counterexample: the claim as stated fails on the code.  With
`okRow` (calendar date 3) followed by a missing-timestamp row, the
document holds two log books while the rows have a single distinct
calendar date: the missing-timestamp row re-appends the open book (the
`NaT` date-change fires, the append happens, then `NaT.strftime` raises),
and the final flush appends the same book once more. -/
theorem claim2_counterexample :
    (generate_seed_data [okRow, missingTsRow]).logBooks.length = 2 ∧
    (datesOf [okRow, missingTsRow]).toFinset.card = 1 ∧
    ¬ (generate_seed_data [okRow, missingTsRow]).logBooks.length =
        (datesOf [okRow, missingTsRow]).toFinset.card := by
  decide

/-- C2 (amended): provided no row of the input has a missing
`Timestamp_EDT` cell, the number of log books in the seed document equals
the number of distinct calendar dates among the rows.  (Each
missing-timestamp row processed while a book is open appends one duplicate
of that book, so without the proviso the count can exceed the number of
distinct dates — see the counterexample.) -/
theorem claim2_logbook_count (rows : List Row) (hnm : noMissingTs rows) :
    (generate_seed_data rows).logBooks.length =
      (datesOf rows).toFinset.card := by
  have h1 : (generate_seed_data rows).logBooks.length =
      ((generate_seed_data rows).logBooks.map LogBook.logDate).length := by
    rw [List.length_map]
  rw [h1, logBooks_dates_generate rows hnm,
    runDates_length_none _ (datesOf_sortRows_pairwise rows)]
  exact congrArg Finset.card
    (List.toFinset_eq_of_perm _ _ (datesOf_sortRows_perm rows))

/-- C2, witness: two rows on distinct dates 3 and 7, none missing, give
two log books. -/
theorem claim2_logbook_count_witness :
    (generate_seed_data [okRow, noStatusRow]).logBooks.length =
      (datesOf [okRow, noStatusRow]).toFinset.card :=
  claim2_logbook_count [okRow, noStatusRow] (by decide)

/-- C3, counterexample: the claim as stated fails on the code.  On
`[okRow, missingTsRow]` the real fold emits the date-3 book twice — the
missing-timestamp row appends the open book although no calendar-date
change occurred (`NaT` compares unequal to everything) — while the
claim's one-book-per-date-change description yields it once. -/
theorem claim3_counterexample :
    (generate_seed_data [okRow, missingTsRow]).logBooks.map bookKey =
      [(3, some 0), (3, some 0)] ∧
    (dateChanges none (sortRows [okRow, missingTsRow])).map
        (fun p => (p.1, resolveVehicle (assets_data [okRow, missingTsRow]) p.2)) =
      [(3, some 0)] ∧
    ¬ (generate_seed_data [okRow, missingTsRow]).logBooks.map bookKey =
        (dateChanges none (sortRows [okRow, missingTsRow])).map
          (fun p =>
            (p.1, resolveVehicle (assets_data [okRow, missingTsRow]) p.2)) := by
  decide

/-- C3 (amended): the fold visits exactly the input rows, sorted by the
raw timestamp comparison (chronological on parsed timestamps), and —
provided no row has a missing `Timestamp_EDT` cell — the log books it
produces are exactly one per calendar-date change of that sorted
sequence, each carrying the new date and the position of the first
previously built asset whose `vehicleNumber` equals the stringified
tractor cell of the row that opened it (`none` when no asset matches).
(A missing-timestamp row appends an extra copy of the open book without a
date change — see the counterexample.) -/
theorem claim3_fold_structure (rows : List Row) (hnm : noMissingTs rows) :
    (sortRows rows).Perm rows
    ∧ List.Pairwise RowLe (sortRows rows)
    ∧ (generate_seed_data rows).logBooks.map bookKey =
        (dateChanges none (sortRows rows)).map
          (fun p => (p.1, resolveVehicle (assets_data rows) p.2)) :=
  ⟨sortRows_perm rows, sortRows_sorted rows, logBooks_key_generate rows hnm⟩

/-- C3, witness: the amended statement at the one-row input `[okRow]`. -/
theorem claim3_fold_structure_witness :
    (sortRows [okRow]).Perm [okRow]
    ∧ List.Pairwise RowLe (sortRows [okRow])
    ∧ (generate_seed_data [okRow]).logBooks.map bookKey =
        (dateChanges none (sortRows [okRow])).map
          (fun p => (p.1, resolveVehicle (assets_data [okRow]) p.2)) :=
  claim3_fold_structure [okRow] (by decide)

/-- C4: the asset list has pairwise-distinct `vehicleNumber`s, those
numbers are exactly the distinct non-missing tractor numbers occurring in
the input, and the number of assets equals the number of distinct
non-missing tractor numbers. -/
theorem claim4_assets (rows : List Row) :
    ((generate_seed_data rows).assets.map Asset.vehicleNumber).Nodup
    ∧ ((generate_seed_data rows).assets.map Asset.vehicleNumber).toFinset =
        (rows.filterMap Row.tractorNumber).toFinset
    ∧ (generate_seed_data rows).assets.length =
        (rows.filterMap Row.tractorNumber).toFinset.card := by
  have ha : (generate_seed_data rows).assets = assets_data rows := rfl
  rw [ha, assets_vehicleNumbers]
  refine ⟨uniqueFirst_nodup _, uniqueFirst_toFinset _, ?_⟩
  have h2 : (assets_data rows).length =
      ((assets_data rows).map Asset.vehicleNumber).length :=
    (List.length_map _ _).symm
  rw [h2, assets_vehicleNumbers, uniqueFirst_length]

/-- C5: every duty event of every log book of the seed document carries a
timestamp whose calendar date is the log book's `logDate`. -/
theorem claim5_event_dates (rows : List Row) (lb : LogBook) (e : DutyEvent)
    (hlb : lb ∈ (generate_seed_data rows).logBooks)
    (he : e ∈ lb.dutyEvents) : e.timestamp.day = lb.logDate :=
  booksOk_generate rows lb hlb e he

/-- C5, witness: the single log book built from `okRow` contains
`okRowEvent`, and its date matches. -/
theorem claim5_event_dates_witness : okRowEvent.timestamp.day = okBook.logDate :=
  claim5_event_dates [okRow] okBook okRowEvent (by decide) (by decide)

/-- C6, counterexample: the claim as stated fails on the code.  With 5
leading header rows and one data row of 17 cells, the parser yields zero
records, not one: `pd.read_csv(..., skiprows=5)` skips the 5 rows and then
consumes the next line — here the lone data row — as the (immediately
renamed) pandas header row. -/
theorem claim6_counterexample :
    parse_eld_data (List.replicate 5 ["h"] ++ [List.replicate 17 "c"]) = some []
    ∧ (List.replicate 5 ["h"] ++ [List.replicate 17 "c"]).length = 5 + 1
    ∧ parse_eld_data (List.replicate 5 ["h"] ++ [List.replicate 17 "c"]) ≠
        some [eldColumns.zip (List.replicate 17 "c")] := by
  decide

/-- C6 (amended): the record parser discards the first 5 rows, consumes
the 6th row as a pandas header row (used only for the column count, which
must be 17; its names are immediately overwritten), and labels every later
row positionally with the fixed ordered list of 17 column names,
regardless of content — so 5 header rows followed by a pandas header row
and N data rows yield exactly those N data rows, positionally labelled. -/
theorem claim6_positional (hs : List (List String)) (hdr : List String)
    (ds : List (List String)) (h5 : hs.length = 5) (h17 : hdr.length = 17) :
    parse_eld_data (hs ++ hdr :: ds) =
      some (ds.map fun row => eldColumns.zip row)
    ∧ eldColumns.length = 17 := by
  constructor
  · have hd : (hs ++ hdr :: ds).drop 5 = hdr :: ds := by
      rw [← h5, List.drop_left]
    unfold parse_eld_data read_csv_skiprows
    rw [hd]
    simp [h17]
  · rfl

/-- C6, witness for the amended statement: 5 junk rows, a 17-cell header
row and one 17-cell data row parse to exactly that data row, labelled with
the fixed column names. -/
theorem claim6_positional_witness :
    parse_eld_data (List.replicate 5 ["m"] ++
        List.replicate 17 "n" :: [List.replicate 17 "v"]) =
      some ([List.replicate 17 "v"].map fun row => eldColumns.zip row)
    ∧ eldColumns.length = 17 :=
  claim6_positional (List.replicate 5 ["m"]) (List.replicate 17 "n")
    [List.replicate 17 "v"] (by decide) (by decide)

/-- C7, counterexample: the claim as stated fails on the code — not every
per-row failure is isolated to its row.  First, a missing-timestamp row
(its `NaT.strftime` raise is caught and the fold continues) re-emits the
open book's events: from `[okRow]` one event is emitted, adding the
missing-timestamp row makes it two.  Second, once a missing-timestamp row
is present, even a caught conversion failure is not isolated:
`lateFailRow` (date 9, non-numeric latitude) opens the date-9 book, so
the missing-timestamp row duplicates that empty book instead of the
date-3 book holding the event, changing the emitted event multiset. -/
theorem claim7_counterexample :
    ¬ (allEvents (generate_seed_data ([okRow] ++ missingTsRow :: []))).Perm
        (allEvents (generate_seed_data ([okRow] ++ []))) ∧
    ¬ (allEvents (generate_seed_data
          ([okRow] ++ lateFailRow :: [missingTsRow]))).Perm
        (allEvents (generate_seed_data ([okRow] ++ [missingTsRow]))) := by
  decide

/-- C7 (amended): in an input where no row has a missing `Timestamp_EDT`
cell, every per-row failure — unparseable timestamp text, or a raising
numeric conversion on a recognised-status row — is caught and isolated:
the multiset of emitted duty events equals that of the run without the
failing row, every calendar date of the other rows still receives a log
book, and the fold continues with the later rows.  A missing-timestamp
row's failure is also caught and the fold continues, but it is not
isolated: it re-appends the open log book (see the counterexample). -/
theorem claim7_row_failure (pre post : List Row) (b : Row)
    (hpre : noMissingTs pre) (hpost : noMissingTs post)
    (hb : rowFails b = true) :
    (allEvents (generate_seed_data (pre ++ b :: post))).Perm
      (allEvents (generate_seed_data (pre ++ post)))
    ∧ ∀ d ∈ datesOf (pre ++ post),
        ∃ lb ∈ (generate_seed_data (pre ++ b :: post)).logBooks,
          lb.logDate = d := by
  have hmk : mkEvent b = none := rowFails_mkEvent hb
  have hnm1 : noMissingTs (pre ++ b :: post) := by
    intro g hg
    rcases List.mem_append.mp hg with h | h
    · exact hpre g h
    · rcases List.mem_cons.mp h with h | h
      · subst h; exact rowFails_not_missing hb
      · exact hpost g h
  have hnm2 : noMissingTs (pre ++ post) := by
    intro g hg
    rcases List.mem_append.mp hg with h | h
    · exact hpre g h
    · exact hpost g h
  constructor
  · rw [allEvents_generate _ hnm1, allEvents_generate _ hnm2]
    have h1 : (List.filterMap mkEvent (sortRows (pre ++ b :: post))).Perm
        (List.filterMap mkEvent (pre ++ b :: post)) :=
      (sortRows_perm _).filterMap mkEvent
    have h2 : List.filterMap mkEvent (pre ++ b :: post) =
        List.filterMap mkEvent (pre ++ post) := by
      simp [List.filterMap_append, List.filterMap_cons, hmk]
    have h3 : (List.filterMap mkEvent (pre ++ post)).Perm
        (List.filterMap mkEvent (sortRows (pre ++ post))) :=
      ((sortRows_perm _).filterMap mkEvent).symm
    have h2p : (List.filterMap mkEvent (pre ++ b :: post)).Perm
        (List.filterMap mkEvent (pre ++ post)) := by
      rw [h2]
    exact (h1.trans h2p).trans h3
  · intro d hd
    have hmem : d ∈ datesOf (pre ++ b :: post) := by
      unfold datesOf at hd ⊢
      rw [List.filterMap_append] at hd ⊢
      rcases List.mem_append.mp hd with h | h
      · exact List.mem_append_left _ h
      · refine List.mem_append_right _ ?_
        rw [List.filterMap_cons]
        cases rowDate b
        · exact h
        · exact List.mem_cons_of_mem _ h
    have hd2 : d ∈ datesOf (sortRows (pre ++ b :: post)) :=
      ((datesOf_sortRows_perm _).mem_iff).mpr hmem
    exact mem_logDate_generate hd2

/-- C7, witness: inserting `badTsRow` (unparseable timestamp text) after
`okRow` changes neither the events nor the dates covered by log books. -/
theorem claim7_row_failure_witness :
    (allEvents (generate_seed_data ([okRow] ++ badTsRow :: []))).Perm
      (allEvents (generate_seed_data ([okRow] ++ [])))
    ∧ ∀ d ∈ datesOf ([okRow] ++ []),
        ∃ lb ∈ (generate_seed_data ([okRow] ++ badTsRow :: [])).logBooks,
          lb.logDate = d :=
  claim7_row_failure [okRow] [] badTsRow (by decide) (by decide) (by decide)

/-- C8, counterexample: the claim as stated fails on the code.
`badOdoRow` has recognised code `ON` and a missing latitude, yet the
document holds no event for it: its present non-numeric `Odometer_Miles`
cell makes `int(float(...))` raise inside the `try` block and the handler
drops the event.  `missingTsRow` (code `ON`, missing latitude) likewise
yields no event: its missing timestamp makes the block raise at
`NaT.strftime` before the event code runs. -/
theorem claim8_counterexample :
    (badOdoRow.newStatus = some "ON" ∧ badOdoRow.latitude = none ∧
      allEvents (generate_seed_data [badOdoRow]) = []) ∧
    (missingTsRow.newStatus = some "ON" ∧ missingTsRow.latitude = none ∧
      allEvents (generate_seed_data [missingTsRow]) = []) := by
  decide

/-- C8 (amended): a row with a recognised status code whose latitude
and/or longitude cell is missing still yields a DutyEvent — with each
missing location field (`latitude`, `longitude`, `address`) null rather
than the event being omitted — provided the row otherwise processes: its
timestamp parses and each of its numeric cells is missing or numeric. -/
theorem claim8_missing_location (rows : List Row) (r : Row) (ts : Timestamp)
    (s : String) (hr : r ∈ rows) (hts : r.timestamp = TsCell.val ts)
    (hs : r.newStatus = some s)
    (hcode : s ∈ (["ON", "OFF", "D", "SB"] : List String))
    (hmiss : r.latitude = none ∨ r.longitude = none)
    (hlat : (pyFloatOpt r.latitude).isSome)
    (hlong : (pyFloatOpt r.longitude).isSome)
    (hodo : (pyFloatOpt r.odometerMiles).isSome)
    (heh : (pyFloatOpt r.engineHours).isSome) :
    ∃ e ∈ allEvents (generate_seed_data rows),
      e.timestamp = ts ∧
      (r.latitude = none → e.latitude = none) ∧
      (r.longitude = none → e.longitude = none) ∧
      (r.location = none → e.address = none) ∧
      duty_status_map s = some e.status := by
  obtain ⟨m, hm⟩ := Option.isSome_iff_exists.mp (duty_status_map_isSome.mpr hcode)
  obtain ⟨lat0, hlat0⟩ := Option.isSome_iff_exists.mp hlat
  obtain ⟨lon0, hlon0⟩ := Option.isSome_iff_exists.mp hlong
  obtain ⟨odo0, hodo0⟩ := Option.isSome_iff_exists.mp hodo
  obtain ⟨eh0, heh0⟩ := Option.isSome_iff_exists.mp heh
  have hstat : statusOf r = some m := by
    unfold statusOf
    rw [hs]
    simpa using hm
  have hbe : buildEvent ts m r =
      some { timestamp := ts, status := m, latitude := lat0,
             longitude := lon0, address := r.location, odometer := odo0,
             engineHours := eh0, source := "ELD", eldRecordId := r.eldId } := by
    unfold buildEvent
    rw [hlat0, hlon0, hodo0, heh0]
  have hmk : mkEvent r =
      some { timestamp := ts, status := m, latitude := lat0,
             longitude := lon0, address := r.location, odometer := odo0,
             engineHours := eh0, source := "ELD", eldRecordId := r.eldId } := by
    unfold mkEvent
    rw [hts]
    simp [TsCell.toOption, hstat, hbe]
  refine ⟨_, mem_allEvents_generate hr hmk, rfl, ?_, ?_, ?_, ?_⟩
  · intro hl
    rw [hl] at hlat0
    have hl0 : lat0 = none := by
      have : (some none : Option (Option Int)) = some lat0 := hlat0
      injection this with h2
      exact h2.symm
    simp [hl0]
  · intro hl
    rw [hl] at hlon0
    have hl0 : lon0 = none := by
      have : (some none : Option (Option Int)) = some lon0 := hlon0
      injection this with h2
      exact h2.symm
    simp [hl0]
  · intro hl
    simp [hl]
  · rw [hm]

/-- C8, witness: `noLocRow` (code `SB`, all three location cells missing,
odometer numeric) yields an event with `None` latitude, longitude and
address. -/
theorem claim8_missing_location_witness :
    ∃ e ∈ allEvents (generate_seed_data [noLocRow]),
      e.timestamp = ⟨4, 2⟩ ∧
      (noLocRow.latitude = none → e.latitude = none) ∧
      (noLocRow.longitude = none → e.longitude = none) ∧
      (noLocRow.location = none → e.address = none) ∧
      duty_status_map "SB" = some e.status :=
  claim8_missing_location [noLocRow] noLocRow ⟨4, 2⟩ "SB" (by decide)
    (by decide) (by decide) (by decide) (Or.inl (by decide)) (by decide)
    (by decide) (by decide) (by decide)

/-- C9: on a workbook with more than one sheet the loader prints one
summary per sheet, returns the per-sheet dictionary, and writes neither
`driver_records.json` nor `driver_records.csv`. -/
theorem claim9_multi_sheet (sheets : List (String × List (List String)))
    (h : 1 < sheets.length) :
    (read_excel_file sheets).filesWritten = []
    ∧ (read_excel_file sheets).sheetSummaries = sheets.length
    ∧ (read_excel_file sheets).outcome = LoaderOutcome.multi sheets := by
  have hne : sheets.length ≠ 1 := by omega
  unfold read_excel_file
  rw [if_neg hne]
  exact ⟨rfl, rfl, rfl⟩

/-- C9, witness: a two-sheet workbook writes no sidecar files and prints
two per-sheet summaries. -/
theorem claim9_multi_sheet_witness :
    (read_excel_file [("A", []), ("B", [])]).filesWritten = []
    ∧ (read_excel_file [("A", []), ("B", [])]).sheetSummaries = 2
    ∧ (read_excel_file [("A", []), ("B", [])]).outcome =
        LoaderOutcome.multi [("A", []), ("B", [])] :=
  claim9_multi_sheet [("A", []), ("B", [])] (by decide)

/-- C10: a calendar date all of whose rows lack a recognised status code
still receives a log book, which appears in the output with an empty
`dutyEvents` list. -/
theorem claim10_empty_logbook (rows : List Row) (d : Nat)
    (hd : d ∈ datesOf rows)
    (hnone : ∀ r ∈ rows, rowDate r = some d → statusOf r = none) :
    ∃ lb ∈ (generate_seed_data rows).logBooks,
      lb.logDate = d ∧ lb.dutyEvents = [] := by
  have hd2 : d ∈ datesOf (sortRows rows) :=
    ((datesOf_sortRows_perm rows).mem_iff).mpr hd
  obtain ⟨lb, hlb, hld⟩ := mem_logDate_generate hd2
  refine ⟨lb, hlb, hld, ?_⟩
  by_contra hne
  obtain ⟨e, he⟩ := List.exists_mem_of_ne_nil _ hne
  have hday : e.timestamp.day = lb.logDate := booksOk_generate rows lb hlb e he
  have hmemAll : e ∈ allEvents (generate_seed_data rows) := by
    unfold allEvents
    exact List.mem_flatMap.mpr ⟨lb, hlb, he⟩
  obtain ⟨r, hrmem, hmk⟩ := allEvents_origin_generate hmemAll
  obtain ⟨ts, s, hts, hstat, hb⟩ := mkEvent_eq_some hmk
  have hets : e.timestamp = ts := (buildEvent_eq_some hb).1
  have hrd : rowDate r = some d := by
    have hday2 : ts.day = d := by
      rw [← hets, hday, hld]
    unfold rowDate
    rw [hts]
    simp [TsCell.toOption, hday2]
  have hcontra := hnone r hrmem hrd
  rw [hcontra] at hstat
  simp at hstat

/-- C10, witness: `noStatusRow` (code `LOGIN`, date 7) produces a log book
for date 7 with no events. -/
theorem claim10_empty_logbook_witness :
    ∃ lb ∈ (generate_seed_data [noStatusRow]).logBooks,
      lb.logDate = 7 ∧ lb.dutyEvents = [] :=
  claim10_empty_logbook [noStatusRow] 7 (by decide) (by decide)

end Eld
